import Mathlib

/-!
Shallow embedding of the ServerGuard file-hosting server, translated from
src/server.mjs. The file contains two server variants separated by a document
marker; where they differ (upload MIME filter, upload size ceiling, delete
response payload) both variants are modelled, suffixed V1 and V2. Everything
else (id encoding, list endpoint, rename, the static-file guard) is identical
in the two variants and is modelled once from the first variant.

Modelling conventions:
- Filenames and ids are Lean strings; raw bytes are lists of naturals below 256.
- The Node Buffer base64 and utf8 codecs are modelled byte-exactly for the
  inputs this system produces; the lossy branch of the utf8 decoder (malformed
  bytes become U+FFFD) stands in for the forgiving Node decoder and is never
  exercised by well-formed ids.
- The filesystem is modelled as the two directories the code touches: the
  upload directory and the static deploy directory, each a flat association
  list from entry name to metadata. The joining and normalisation performed by
  path.join on the upload-directory base is modelled segment by segment, so a
  decoded name such as ../dist/x resolves to the static directory exactly as it
  does at runtime. Paths that resolve anywhere else, including the directories
  themselves, are treated as absent files, and a rename destination outside the
  two directories is reported as an IO failure: the model does not track the
  wider filesystem.
- Directory entries carry an isFile flag, matching the stat checks in the code;
  a path with a trailing slash only exists when the entry is a directory,
  matching the kernel behaviour the code relies on.
-/

namespace ServerGuard

/-- The standard base64 alphabet used by the Node Buffer base64 codec. -/
def b64Chars : List Char :=
  ['A','B','C','D','E','F','G','H','I','J','K','L','M','N','O','P','Q','R','S','T',
   'U','V','W','X','Y','Z','a','b','c','d','e','f','g','h','i','j','k','l','m','n',
   'o','p','q','r','s','t','u','v','w','x','y','z','0','1','2','3','4','5','6','7',
   '8','9','+','/']

/-- Character for a six-bit value. -/
def b64Char (n : Nat) : Char := b64Chars.getD n 'A'

/-- Six-bit value of an alphabet character; none for padding or foreign characters. -/
def b64Value (c : Char) : Option Nat := b64Chars.indexOf? c

/-- Base64 encoding of a byte list: model of Buffer.from(bytes).toString with the
base64 codec, as used on line 81 of server.mjs for ids. -/
def base64Encode : List Nat → List Char
  | [] => []
  | [a] => [b64Char (a / 4), b64Char (a % 4 * 16), '=', '=']
  | [a, b] => [b64Char (a / 4), b64Char (a % 4 * 16 + b / 16), b64Char (b % 16 * 4), '=']
  | a :: b :: c :: rest =>
      b64Char (a / 4) :: b64Char (a % 4 * 16 + b / 16) :: b64Char (b % 16 * 4 + c / 64) ::
      b64Char (c % 64) :: base64Encode rest

/-- Base64 decoding of a character list: model of Buffer.from(id, base64 codec) on
the four-character padded groups this system produces. -/
def base64Decode : List Char → List Nat
  | c1 :: c2 :: c3 :: c4 :: rest =>
    match b64Value c1, b64Value c2 with
    | some v1, some v2 =>
      let b1 := v1 * 4 + v2 / 16
      match b64Value c3 with
      | some v3 =>
        let b2 := v2 % 16 * 16 + v3 / 4
        match b64Value c4 with
        | some v4 => b1 :: b2 :: (v3 % 4 * 64 + v4) :: base64Decode rest
        | none => [b1, b2]
      | none => [b1]
    | _, _ => []
  | _ => []

/-- UTF-8 encoding of a Unicode code point, for the valid scalars a Lean Char holds. -/
def utf8EncodeChar (c : Nat) : List Nat :=
  if c < 0x80 then [c]
  else if c < 0x800 then [0xC0 + c / 64, 0x80 + c % 64]
  else if c < 0x10000 then [0xE0 + c / 4096, 0x80 + c / 64 % 64, 0x80 + c % 64]
  else [0xF0 + c / 262144, 0x80 + c / 4096 % 64, 0x80 + c / 64 % 64, 0x80 + c % 64]

/-- Byte sequence of a list of characters. -/
def utf8EncodeChars (cs : List Char) : List Nat :=
  (cs.map (fun c => utf8EncodeChar c.toNat)).flatten

/-- UTF-8 byte sequence of a string. -/
def utf8Encode (s : String) : List Nat := utf8EncodeChars s.data

/-- Decode one UTF-8 scalar from a first byte and the following bytes; returns the
code point and how many continuation bytes were consumed, none on malformed input. -/
def utf8Decode1 (b : Nat) (rest : List Nat) : Option (Nat × Nat) :=
  if b < 0x80 then some (b, 0)
  else if b < 0xC2 then none
  else if b < 0xE0 then
    match rest with
    | b1 :: _ =>
      if 0x80 ≤ b1 ∧ b1 < 0xC0 then some ((b - 0xC0) * 64 + (b1 - 0x80), 1) else none
    | _ => none
  else if b < 0xF0 then
    match rest with
    | b1 :: b2 :: _ =>
      if (0x80 ≤ b1 ∧ b1 < 0xC0) ∧ (0x80 ≤ b2 ∧ b2 < 0xC0) then
        let c := (b - 0xE0) * 4096 + (b1 - 0x80) * 64 + (b2 - 0x80)
        if 0x800 ≤ c ∧ (c < 0xD800 ∨ 0xDFFF < c) then some (c, 2) else none
      else none
    | _ => none
  else if b < 0xF5 then
    match rest with
    | b1 :: b2 :: b3 :: _ =>
      if (0x80 ≤ b1 ∧ b1 < 0xC0) ∧ (0x80 ≤ b2 ∧ b2 < 0xC0) ∧ (0x80 ≤ b3 ∧ b3 < 0xC0) then
        let c := (b - 0xF0) * 262144 + (b1 - 0x80) * 4096 + (b2 - 0x80) * 64 + (b3 - 0x80)
        if 0x10000 ≤ c ∧ c < 0x110000 then some (c, 3) else none
      else none
    | _ => none
  else none

/-- Fuel-driven UTF-8 decoding loop; each step consumes at least one byte, and a
malformed byte decodes to U+FFFD as in the lossy Node utf8 decoder. -/
def utf8DecodeLoop : Nat → List Nat → List Char
  | 0, _ => []
  | _ + 1, [] => []
  | fuel + 1, b :: rest =>
    match utf8Decode1 b rest with
    | some (c, k) => Char.ofNat c :: utf8DecodeLoop fuel (rest.drop k)
    | none => '�' :: utf8DecodeLoop fuel rest

/-- Total UTF-8 decoding of a byte list: model of buffer.toString with the utf8 codec. -/
def utf8DecodeBytes (bs : List Nat) : List Char := utf8DecodeLoop bs.length bs

/-- Valid scalar values: the code points a Lean Char can carry. -/
def ValidScalar (c : Nat) : Prop := c < 0xD800 ∨ (0xDFFF < c ∧ c < 0x110000)

/-- Model of Buffer.from(name).toString with the base64 codec: the id encoding used
on lines 81, 102, 139 and 191 of server.mjs. -/
def encodeName (name : String) : String := String.mk (base64Encode (utf8Encode name))

/-- Model of Buffer.from(id, base64 codec).toString with the utf8 codec: the id
decoding used on lines 166 and 212 of server.mjs. -/
def decodeId (id : String) : String := String.mk (utf8DecodeBytes (base64Decode id.data))

/-- Model of the JavaScript startsWith check on strings. -/
def strStartsWith (p s : String) : Bool := p.data.isPrefixOf s.data

/-- The marker prepended to static-directory filenames before id encoding. -/
def staticMarker : String := "public_"

/-- Split a character list at slashes, accumulating the current segment reversed. -/
def splitSlashAux (cur : List Char) : List Char → List String
  | [] => [String.mk cur.reverse]
  | c :: cs =>
    if c = '/' then String.mk cur.reverse :: splitSlashAux [] cs
    else splitSlashAux (c :: cur) cs

/-- Slash-separated segments of a path string. -/
def splitSlash (s : String) : List String := splitSlashAux [] s.data

/-- Location reached from a directory stack under the server root after one path
segment, where none means the path has escaped above the server root. Empty and
dot segments are dropped and dot-dot pops, as path.join normalisation does. -/
def stepSeg : Option (List String) → String → Option (List String)
  | none, _ => none
  | some st, s =>
    if s = "" ∨ s = "." then some st
    else if s = ".." then
      match st with
      | [] => none
      | _ => some st.dropLast
    else some (st ++ [s])

/-- Resolve path.join of a base stack under the server root with a relative name. -/
def resolveJoin (base : List String) (name : String) : Option (List String) :=
  (splitSlash name).foldl stepSeg (some base)

/-- Where a path resolved against the upload-directory base actually lands. -/
inductive Target where
  | uploadFile (name : String)
  | staticFile (name : String)
  | outside
deriving DecidableEq

/-- Classify a resolved segment stack: a single segment under uploads is an
upload-directory entry, a single segment under dist is a static-directory entry,
anything else is outside the modelled world. -/
def targetOf : Option (List String) → Target
  | some ["uploads", n] => .uploadFile n
  | some ["dist", n] => .staticFile n
  | _ => .outside

/-- Model of path.join(UPLOAD_DIR, name) followed by filesystem access: where the
named path lands, with UPLOAD_DIR at uploads and PUBLIC_DIR at dist under the
server root, as configured on lines 20 and 21 of server.mjs. -/
def joinUpload (name : String) : Target := targetOf (resolveJoin ["uploads"] name)

/-- Whether path.join keeps a trailing slash on the name, which makes the kernel
accept the path only when it denotes a directory. -/
def hasTrailSlash (s : String) : Bool := s.data.getLast? == some '/'

/-- Stat metadata of a directory entry. -/
structure FileStat where
  size : Nat
  birth : Int
  mtime : Int
  isFile : Bool
deriving DecidableEq

/-- A flat directory: entry names with their stat metadata. -/
abbrev DirListing := List (String × FileStat)

/-- Stat of the named entry, if present. -/
def dirLookup : DirListing → String → Option FileStat
  | [], _ => none
  | e :: d, n => if e.1 = n then some e.2 else dirLookup d n

/-- Remove the named entry. -/
def dirRemove : DirListing → String → DirListing
  | [], _ => []
  | e :: d, n => if e.1 = n then dirRemove d n else e :: dirRemove d n

/-- Write the named entry, replacing any previous one. -/
def dirWrite (d : DirListing) (n : String) (st : FileStat) : DirListing :=
  dirRemove d n ++ [(n, st)]

/-- The filesystem state the server manipulates: the upload directory and the
static deploy directory. -/
structure FS where
  upload : DirListing
  staticDir : DirListing
deriving DecidableEq

/-- Stat of the entry a target denotes. -/
def fsStat (fs : FS) : Target → Option FileStat
  | .uploadFile n => dirLookup fs.upload n
  | .staticFile n => dirLookup fs.staticDir n
  | .outside => none

/-- Model of fs.existsSync on a joined path: the target entry must exist, and a
trailing slash additionally requires a directory entry. -/
def fsExistsAt (fs : FS) (t : Target) (slash : Bool) : Bool :=
  match fsStat fs t with
  | none => false
  | some st => !slash || !st.isFile

/-- Remove the entry a target denotes. -/
def fsRemove (fs : FS) : Target → FS
  | .uploadFile n => { fs with upload := dirRemove fs.upload n }
  | .staticFile n => { fs with staticDir := dirRemove fs.staticDir n }
  | .outside => fs

/-- Write an entry at a target; a write outside the modelled directories is dropped. -/
def fsWrite (fs : FS) (t : Target) (st : FileStat) : FS :=
  match t with
  | .uploadFile n => { fs with upload := dirWrite fs.upload n st }
  | .staticFile n => { fs with staticDir := dirWrite fs.staticDir n st }
  | .outside => fs

/-- Lowercase an ASCII letter, the case folding the image-extension regex uses. -/
def asciiLower (c : Char) : Char :=
  if 'A' ≤ c ∧ c ≤ 'Z' then Char.ofNat (c.toNat + 32) else c

/-- The extensions of the static-directory image filter regex on line 97 of
server.mjs. -/
def imageExts : List String := ["png", "jpg", "jpeg", "gif", "webp", "svg"]

/-- Model of the case-insensitive test of the image-extension regex. -/
def hasImageExt (name : String) : Bool :=
  imageExts.any (fun e => ("." ++ e).data.isSuffixOf (name.data.map asciiLower))

/-- Uppercase hexadecimal digit. -/
def hexDigit (n : Nat) : Char := (['0','1','2','3','4','5','6','7','8','9','A','B','C','D','E','F']).getD n '0'

/-- Characters encodeURIComponent leaves unescaped. -/
def uriUnreserved (c : Char) : Bool :=
  ('A' ≤ c ∧ c ≤ 'Z') || ('a' ≤ c ∧ c ≤ 'z') || ('0' ≤ c ∧ c ≤ '9') ||
  c ∈ (['-', '_', '.', '!', '~', '*', '\'', '(', ')'] : List Char)

/-- Model of encodeURIComponent, used for the url field of asset records. -/
def uriEncode (s : String) : String :=
  String.mk ((s.data.map (fun c =>
    if uriUnreserved c then [c]
    else ((utf8EncodeChar c.toNat).map (fun b => ['%', hexDigit (b / 16), hexDigit (b % 16)])).flatten)).flatten)

/-- The asset record the API returns for a file, as built on lines 80 to 88,
101 to 109, 138 to 146 and 190 to 198 of server.mjs. -/
structure AssetRecord where
  id : String
  name : String
  url : String
  size : Nat
  createdAt : Int
  modifiedAt : Int
  isUploaded : Bool
deriving DecidableEq

/-- Record for an upload-directory entry. -/
def mkUploadRecord (n : String) (st : FileStat) : AssetRecord :=
  { id := encodeName n, name := n, url := "/uploads/" ++ uriEncode n,
    size := st.size, createdAt := st.birth, modifiedAt := st.mtime, isUploaded := true }

/-- Record for a static-directory entry; its id encodes the marker-prefixed name. -/
def mkStaticRecord (n : String) (st : FileStat) : AssetRecord :=
  { id := encodeName (staticMarker ++ n), name := n, url := "/" ++ uriEncode n,
    size := st.size, createdAt := st.birth, modifiedAt := st.mtime, isUploaded := false }

/-- Records pushed for the upload directory: every regular file, with no type filter. -/
def uploadRecords (d : DirListing) : List AssetRecord :=
  d.filterMap (fun e => if e.2.isFile then some (mkUploadRecord e.1 e.2) else none)

/-- Records pushed for the static directory: regular files whose name passes the
image-extension regex. -/
def staticRecords (d : DirListing) : List AssetRecord :=
  d.filterMap (fun e =>
    if hasImageExt e.1 && e.2.isFile then some (mkStaticRecord e.1 e.2) else none)

/-- Comparator of the listing sort: descending modification time. The JavaScript
sort is stable, so the stable mergeSort under the matching order models it. -/
def newerFirst (a b : AssetRecord) : Bool := decide (b.modifiedAt ≤ a.modifiedAt)

/-- Model of the GET /api/files handler, lines 69 to 118 of server.mjs: collect
upload-directory records then static-directory records, sort newest first. -/
def listFiles (fs : FS) : List AssetRecord :=
  (uploadRecords fs.upload ++ staticRecords fs.staticDir).mergeSort newerFirst

/-- Response of the rename endpoint. -/
inductive RenameResp where
  | ok (file : AssetRecord)
  | fail (status : Nat) (error : String)
deriving DecidableEq

/-- Response of the delete endpoint; a success carries the optional message field. -/
inductive DeleteResp where
  | ok (message : Option String)
  | fail (status : Nat) (error : String)
deriving DecidableEq

/-- Model of the PUT rename handler, lines 157 to 204 of server.mjs. A missing
new name is rejected first; then the decoded old name is guarded against the
static marker; then existence of source and absence of destination are checked
on the joined paths; finally the entry moves and the updated record is returned.
A destination outside the two modelled directories, or a trailing-slash
destination for a regular file, makes renameSync throw and is modelled as the
catch-all 500 response. -/
def renameOpV1 (fs : FS) (id newName : String) : FS × RenameResp :=
  if newName = "" then (fs, .fail 400 "请提供新文件名")
  else
    let oldName := decodeId id
    if strStartsWith staticMarker oldName then (fs, .fail 400 "静态部署的文件无法重命名")
    else
      let oldT := joinUpload oldName
      let newT := joinUpload newName
      if fsExistsAt fs oldT (hasTrailSlash oldName) = false then (fs, .fail 404 "文件不存在")
      else if fsExistsAt fs newT (hasTrailSlash newName) then (fs, .fail 400 "目标文件名已存在")
      else
        match fsStat fs oldT with
        | none => (fs, .fail 500 "重命名文件失败")
        | some st =>
          if newT = .outside ∨ (hasTrailSlash newName && st.isFile) then
            (fs, .fail 500 "重命名文件失败")
          else
            (fsWrite (fsRemove fs oldT) newT st,
             .ok { id := encodeName newName, name := newName,
                   url := "/uploads/" ++ uriEncode newName, size := st.size,
                   createdAt := st.birth, modifiedAt := st.mtime, isUploaded := true })

/-- Shared semantics of the DELETE handler, lines 209 to 232 and 435 to 446 of
server.mjs: static-marker guard, existence check on the joined path, unlink.
Unlinking a directory entry makes unlinkSync throw, modelled as the 500 branch. -/
def deleteCore (fs : FS) (id : String) : FS × Option (Nat × String) :=
  let filename := decodeId id
  if strStartsWith staticMarker filename then (fs, some (400, "static"))
  else
    let t := joinUpload filename
    if fsExistsAt fs t (hasTrailSlash filename) = false then (fs, some (404, "missing"))
    else
      match fsStat fs t with
      | none => (fs, some (404, "missing"))
      | some st =>
        if st.isFile then (fsRemove fs t, none)
        else (fs, some (500, "unlink"))

/-- Variant 1 delete handler: success carries the deletion message. -/
def deleteOpV1 (fs : FS) (id : String) : FS × DeleteResp :=
  match deleteCore fs id with
  | (fs2, none) => (fs2, .ok (some "文件删除成功"))
  | (fs2, some (400, _)) => (fs2, .fail 400 "静态部署的文件无法删除")
  | (fs2, some (404, _)) => (fs2, .fail 404 "文件不存在")
  | (fs2, some (_, _)) => (fs2, .fail 500 "删除文件失败")

/-- Variant 2 delete handler: success carries no message; the 500 branch falls
through to the framework default handler, whose body the model leaves empty. -/
def deleteOpV2 (fs : FS) (id : String) : FS × DeleteResp :=
  match deleteCore fs id with
  | (fs2, none) => (fs2, .ok none)
  | (fs2, some (400, _)) => (fs2, .fail 400 "静态文件无法删除")
  | (fs2, some (404, _)) => (fs2, .fail 404 "文件不存在")
  | (fs2, some (_, _)) => (fs2, .fail 500 "")

/-- Last slash-separated segment of a name, on which path.extname and
path.basename operate. -/
def lastSlashSeg (s : String) : String := (splitSlash s).getLastD ""

/-- Index boundary of the extension of a segment: characters from the last dot,
provided that dot is not the leading character; otherwise the whole segment is base. -/
def extStart (cs : List Char) : Nat :=
  match cs.reverse.findIdx? (fun c => c = '.') with
  | none => cs.length
  | some j => if cs.length - 1 - j = 0 then cs.length else cs.length - 1 - j

/-- Model of path.extname on the original upload name. -/
def nodeExtname (s : String) : String :=
  String.mk ((lastSlashSeg s).data.drop (extStart (lastSlashSeg s).data))

/-- Model of path.basename applied with the extension stripped, as the upload
filename callback does on line 41 of server.mjs. -/
def nodeBaseName (s : String) : String :=
  String.mk ((lastSlashSeg s).data.take (extStart (lastSlashSeg s).data))

/-- Model of the multer diskStorage filename callback, lines 37 to 48 of
server.mjs: keep the original name unless the joined path already exists, in
which case use base_timestamp.ext. -/
def storedUploadName (fs : FS) (originalName : String) (now : Nat) : String :=
  if fsExistsAt fs (joinUpload originalName) (hasTrailSlash originalName) then
    nodeBaseName originalName ++ "_" ++ Nat.repr now ++ nodeExtname originalName
  else originalName

/-- The variant 1 MIME allow list, line 55 of server.mjs. -/
def allowedTypesV1 : List String :=
  ["image/png", "image/jpeg", "image/gif", "image/webp", "image/svg+xml"]

/-- Variant 1 fileFilter: the declared MIME type must be on the allow list. -/
def allowV1 (mime : String) : Bool := allowedTypesV1.contains mime

/-- Variant 2 fileFilter, line 323 of server.mjs: any MIME type under image. -/
def allowV2 (mime : String) : Bool := strStartsWith "image/" mime

/-- Variant 1 upload size ceiling in bytes, line 53 of server.mjs. -/
def limitV1 : Nat := 10 * 1024 * 1024

/-- Variant 2 upload size ceiling in bytes, line 321 of server.mjs. -/
def limitV2 : Nat := 5 * 1024 * 1024

/-- Result of the upload endpoint. The rejection reasons are surfaced through
the multer error path, outside the handler itself. -/
inductive UploadResult where
  | ok (file : AssetRecord)
  | badType
  | tooLarge
  | ioError
deriving DecidableEq

/-- Model of the upload pipeline: multer runs the fileFilter before anything is
written, enforces the size ceiling during streaming and removes a partly
written file on failure, then the diskStorage callback picks the stored name and the handler
stats the written file and returns its record (lines 33 to 62 and 128 to 152 of
server.mjs). The written file carries the upload time as both birth and
modification time. -/
def uploadOp (allow : String → Bool) (limit : Nat) (fs : FS)
    (origName mime : String) (size : Nat) (now : Nat) : FS × UploadResult :=
  if allow mime = false then (fs, .badType)
  else if limit < size then (fs, .tooLarge)
  else
    let finalName := storedUploadName fs origName now
    let t := joinUpload finalName
    if t = .outside ∨ hasTrailSlash finalName then (fs, .ioError)
    else
      let st : FileStat := { size := size, birth := (now : Int), mtime := (now : Int), isFile := true }
      (fsWrite fs t st,
       .ok { id := encodeName finalName, name := finalName,
             url := "/uploads/" ++ uriEncode finalName, size := size,
             createdAt := (now : Int), modifiedAt := (now : Int), isUploaded := true })

/-- Variant 1 upload endpoint. -/
def uploadV1 (fs : FS) (origName mime : String) (size : Nat) (now : Nat) : FS × UploadResult :=
  uploadOp allowV1 limitV1 fs origName mime size now

/-- Variant 2 upload endpoint. -/
def uploadV2 (fs : FS) (origName mime : String) (size : Nat) (now : Nat) : FS × UploadResult :=
  uploadOp allowV2 limitV2 fs origName mime size now

/-! ## Lemmas about the encoding layer -/

theorem b64Value_b64Char : ∀ n, n < 64 → b64Value (b64Char n) = some n := by decide

theorem b64Value_pad : b64Value '=' = none := by decide

theorem base64_roundtrip : ∀ (bs : List Nat), (∀ b ∈ bs, b < 256) →
    base64Decode (base64Encode bs) = bs := by
  intro bs
  induction bs using base64Encode.induct with
  | case1 => intro _; rfl
  | case2 a =>
    intro h
    have ha : a < 256 := h a (by simp)
    simp only [base64Encode, base64Decode]
    rw [b64Value_b64Char (a / 4) (by omega), b64Value_b64Char (a % 4 * 16) (by omega)]
    simp only [b64Value_pad]
    simp
    omega
  | case3 a b =>
    intro h
    have ha : a < 256 := h a (by simp)
    have hb : b < 256 := h b (by simp)
    simp only [base64Encode, base64Decode]
    rw [b64Value_b64Char (a / 4) (by omega), b64Value_b64Char (a % 4 * 16 + b / 16) (by omega),
      b64Value_b64Char (b % 16 * 4) (by omega)]
    simp only [b64Value_pad]
    simp
    omega
  | case4 a b c rest ih =>
    intro h
    have ha : a < 256 := h a (by simp)
    have hb : b < 256 := h b (by simp)
    have hc : c < 256 := h c (by simp)
    have hrest : ∀ x ∈ rest, x < 256 := by
      intro x hx; exact h x (by simp [hx])
    simp only [base64Encode, base64Decode]
    rw [b64Value_b64Char (a / 4) (by omega), b64Value_b64Char (a % 4 * 16 + b / 16) (by omega),
      b64Value_b64Char (b % 16 * 4 + c / 64) (by omega), b64Value_b64Char (c % 64) (by omega)]
    simp [ih hrest]
    omega

theorem b64Char_mem (n : Nat) : b64Char n ∈ b64Chars := by
  by_cases h : n < 64
  · have : ∀ m, m < 64 → b64Char m ∈ b64Chars := by decide
    exact this n h
  · unfold b64Char
    rw [List.getD_eq_default]
    · decide
    · simp [b64Chars]; omega

theorem base64Encode_chars : ∀ (bs : List Nat), ∀ c ∈ base64Encode bs,
    c ∈ b64Chars ∨ c = '=' := by
  intro bs
  induction bs using base64Encode.induct with
  | case1 => intro c hc; simp [base64Encode] at hc
  | case2 a =>
    intro c hc
    simp [base64Encode] at hc
    rcases hc with rfl | rfl | rfl
    · exact Or.inl (b64Char_mem _)
    · exact Or.inl (b64Char_mem _)
    · exact Or.inr rfl
  | case3 a b =>
    intro c hc
    simp [base64Encode] at hc
    rcases hc with rfl | rfl | rfl | rfl
    · exact Or.inl (b64Char_mem _)
    · exact Or.inl (b64Char_mem _)
    · exact Or.inl (b64Char_mem _)
    · exact Or.inr rfl
  | case4 a b c rest ih =>
    intro x hx
    simp only [base64Encode, List.mem_cons] at hx
    rcases hx with rfl | rfl | rfl | rfl | hx
    · exact Or.inl (b64Char_mem _)
    · exact Or.inl (b64Char_mem _)
    · exact Or.inl (b64Char_mem _)
    · exact Or.inl (b64Char_mem _)
    · exact ih x hx

theorem utf8EncodeChar_len_pos (c : Nat) : 0 < (utf8EncodeChar c).length := by
  unfold utf8EncodeChar
  split
  · simp
  · split
    · simp
    · split
      · simp
      · simp

theorem utf8EncodeChar_bytes_lt (c : Nat) (h : c < 0x110000) :
    ∀ b ∈ utf8EncodeChar c, b < 256 := by
  unfold utf8EncodeChar
  split
  · intro b hb; simp at hb; omega
  · split
    · intro b hb; simp at hb; rcases hb with h1 | h1 <;> omega
    · split
      · intro b hb; simp at hb; rcases hb with h1 | h1 | h1 <;> omega
      · intro b hb; simp at hb; rcases hb with h1 | h1 | h1 | h1 <;> omega

theorem char_toNat_valid (c : Char) : ValidScalar c.toNat := by
  have hv := c.valid
  have he : c.toNat = c.val.toNat := rfl
  rcases hv with h | h
  · left; rw [he]; omega
  · right; rw [he]; omega

theorem utf8Encode_bytes_lt (s : String) : ∀ b ∈ utf8Encode s, b < 256 := by
  intro b hb
  simp only [utf8Encode, utf8EncodeChars, List.mem_flatten, List.mem_map] at hb
  obtain ⟨l, ⟨c, _, rfl⟩, hbl⟩ := hb
  have hc : c.toNat < 0x110000 := by
    rcases char_toNat_valid c with h | h
    · omega
    · omega
  exact utf8EncodeChar_bytes_lt c.toNat hc b hbl

theorem utf8Decode1_encode (c : Nat) (hv : ValidScalar c) (rest : List Nat) :
    utf8Decode1 ((utf8EncodeChar c).headD 0) ((utf8EncodeChar c).tail ++ rest) =
      some (c, (utf8EncodeChar c).length - 1) := by
  unfold utf8EncodeChar
  by_cases h1 : c < 0x80
  · simp [h1, utf8Decode1]
  · by_cases h2 : c < 0x800
    · simp only [if_neg h1, if_pos h2]
      simp only [List.headD, List.tail, List.cons_append]
      unfold utf8Decode1
      have hc1 : ¬ (0xC0 + c / 64 < 0x80) := by omega
      rw [if_neg hc1]
      have hc2 : ¬ (0xC0 + c / 64 < 0xC2) := by omega
      rw [if_neg hc2]
      have hc3 : 0xC0 + c / 64 < 0xE0 := by omega
      rw [if_pos hc3]
      simp only []
      have hb : 0x80 ≤ 0x80 + c % 64 ∧ 0x80 + c % 64 < 0xC0 := by omega
      rw [if_pos hb]
      have hval : (0xC0 + c / 64 - 0xC0) * 64 + (0x80 + c % 64 - 0x80) = c := by omega
      rw [hval]
      simp
    · by_cases h3 : c < 0x10000
      · simp only [if_neg h1, if_neg h2, if_pos h3]
        simp only [List.headD, List.tail, List.cons_append]
        unfold utf8Decode1
        have hn1 : ¬ (0xE0 + c / 4096 < 0x80) := by omega
        have hn2 : ¬ (0xE0 + c / 4096 < 0xC2) := by omega
        have hn3 : ¬ (0xE0 + c / 4096 < 0xE0) := by omega
        have hy : 0xE0 + c / 4096 < 0xF0 := by omega
        rw [if_neg hn1, if_neg hn2, if_neg hn3, if_pos hy]
        simp only []
        have hb : (0x80 ≤ 0x80 + c / 64 % 64 ∧ 0x80 + c / 64 % 64 < 0xC0) ∧
            (0x80 ≤ 0x80 + c % 64 ∧ 0x80 + c % 64 < 0xC0) := by omega
        rw [if_pos hb]
        have hval : (0xE0 + c / 4096 - 0xE0) * 4096 + (0x80 + c / 64 % 64 - 0x80) * 64 +
            (0x80 + c % 64 - 0x80) = c := by omega
        rw [hval]
        have hr : 0x800 ≤ c ∧ (c < 0xD800 ∨ 0xDFFF < c) := by
          rcases hv with h | h
          · exact ⟨by omega, Or.inl (by omega)⟩
          · exact ⟨by omega, Or.inr (by omega)⟩
        rw [if_pos hr]
        simp
      · have h4 : c < 0x110000 := by
          rcases hv with h | h
          · omega
          · omega
        simp only [if_neg h1, if_neg h2, if_neg h3]
        simp only [List.headD, List.tail, List.cons_append]
        unfold utf8Decode1
        have hn1 : ¬ (0xF0 + c / 262144 < 0x80) := by omega
        have hn2 : ¬ (0xF0 + c / 262144 < 0xC2) := by omega
        have hn3 : ¬ (0xF0 + c / 262144 < 0xE0) := by omega
        have hn4 : ¬ (0xF0 + c / 262144 < 0xF0) := by omega
        have hy : 0xF0 + c / 262144 < 0xF5 := by omega
        rw [if_neg hn1, if_neg hn2, if_neg hn3, if_neg hn4, if_pos hy]
        simp only []
        have hb : (0x80 ≤ 0x80 + c / 4096 % 64 ∧ 0x80 + c / 4096 % 64 < 0xC0) ∧
            (0x80 ≤ 0x80 + c / 64 % 64 ∧ 0x80 + c / 64 % 64 < 0xC0) ∧
            (0x80 ≤ 0x80 + c % 64 ∧ 0x80 + c % 64 < 0xC0) := by omega
        rw [if_pos hb]
        have hval : (0xF0 + c / 262144 - 0xF0) * 262144 + (0x80 + c / 4096 % 64 - 0x80) * 4096 +
            (0x80 + c / 64 % 64 - 0x80) * 64 + (0x80 + c % 64 - 0x80) = c := by omega
        rw [hval]
        have hr : 0x10000 ≤ c ∧ c < 0x110000 := by omega
        rw [if_pos hr]
        simp

theorem utf8DecodeLoop_encode (cs : List Char) :
    ∀ fuel, (utf8EncodeChars cs).length ≤ fuel →
      utf8DecodeLoop fuel (utf8EncodeChars cs) = cs := by
  induction cs with
  | nil =>
    intro fuel _
    cases fuel <;> rfl
  | cons c cs ih =>
    intro fuel hfuel
    have hvalid := char_toNat_valid c
    obtain ⟨a, t, he⟩ : ∃ a t, utf8EncodeChar c.toNat = a :: t := by
      have := utf8EncodeChar_len_pos c.toNat
      cases h : utf8EncodeChar c.toNat with
      | nil => rw [h] at this; simp at this
      | cons a t => exact ⟨a, t, rfl⟩
    have hbytes : utf8EncodeChars (c :: cs) = a :: (t ++ utf8EncodeChars cs) := by
      simp [utf8EncodeChars, he]
    rw [hbytes] at hfuel ⊢
    obtain ⟨f, rfl⟩ : ∃ f, fuel = f + 1 := by
      cases fuel with
      | zero => simp at hfuel
      | succ f => exact ⟨f, rfl⟩
    have hdec := utf8Decode1_encode c.toNat hvalid (utf8EncodeChars cs)
    rw [he] at hdec
    simp only [List.headD, List.tail, List.cons_append] at hdec
    simp only [utf8DecodeLoop, hdec]
    have hlen : (a :: t).length - 1 = t.length := by simp
    rw [hlen, List.drop_left, Char.ofNat_toNat]
    congr 1
    apply ih
    simp at hfuel
    omega

theorem utf8_roundtrip (s : String) : utf8DecodeBytes (utf8Encode s) = s.data := by
  have h : utf8Encode s = utf8EncodeChars s.data := rfl
  rw [utf8DecodeBytes, h, utf8DecodeLoop_encode s.data _ (by omega)]

theorem decodeId_encodeName (s : String) : decodeId (encodeName s) = s := by
  unfold decodeId encodeName
  have hdata : (String.mk (base64Encode (utf8Encode s))).data = base64Encode (utf8Encode s) := rfl
  rw [hdata, base64_roundtrip _ (utf8Encode_bytes_lt s), utf8_roundtrip]

theorem strStartsWith_append (p n : String) : strStartsWith p (p ++ n) = true := by
  unfold strStartsWith
  have hdata : (p ++ n).data = p.data ++ n.data := String.data_append p n
  rw [hdata]
  exact List.isPrefixOf_iff_prefix.mpr (List.prefix_append _ _)

/-! ## Lemmas about directories, paths and the filesystem model -/

theorem dirLookup_dirRemove_self (d : DirListing) (n : String) :
    dirLookup (dirRemove d n) n = none := by
  induction d with
  | nil => rfl
  | cons e d ih =>
    by_cases he : e.1 = n
    · simpa [dirRemove, he] using ih
    · simpa [dirRemove, dirLookup, he] using ih

theorem dirLookup_dirRemove_ne (d : DirListing) (n m : String) (h : m ≠ n) :
    dirLookup (dirRemove d n) m = dirLookup d m := by
  induction d with
  | nil => rfl
  | cons e d ih =>
    have hnm : n ≠ m := fun hc => h hc.symm
    by_cases he : e.1 = n
    · simpa [dirRemove, dirLookup, he, hnm] using ih
    · by_cases hm : e.1 = m
      · simp [dirRemove, dirLookup, he, hm, h]
      · simpa [dirRemove, dirLookup, he, hm] using ih

theorem dirLookup_dirWrite_self (d : DirListing) (n : String) (st : FileStat) :
    dirLookup (dirWrite d n st) n = some st := by
  induction d with
  | nil => simp [dirWrite, dirRemove, dirLookup]
  | cons e d ih =>
    by_cases he : e.1 = n
    · simpa [dirWrite, dirRemove, dirLookup, he] using ih
    · simpa [dirWrite, dirRemove, dirLookup, he] using ih

theorem dirLookup_dirWrite_ne (d : DirListing) (n m : String) (st : FileStat) (h : m ≠ n) :
    dirLookup (dirWrite d n st) m = dirLookup d m := by
  induction d with
  | nil =>
    have : n ≠ m := fun hc => h hc.symm
    simp [dirWrite, dirRemove, dirLookup, this]
  | cons e d ih =>
    have hnm : n ≠ m := fun hc => h hc.symm
    by_cases he : e.1 = n
    · simpa [dirWrite, dirRemove, dirLookup, he, hnm] using ih
    · by_cases hm : e.1 = m
      · simp [dirWrite, dirRemove, dirLookup, he, hm, h, hnm]
      · simpa [dirWrite, dirRemove, dirLookup, he, hm] using ih

theorem fsStat_fsWrite_self (fs : FS) (t : Target) (st : FileStat) (h : t ≠ .outside) :
    fsStat (fsWrite fs t st) t = some st := by
  cases t with
  | uploadFile n => simp [fsWrite, fsStat, dirLookup_dirWrite_self]
  | staticFile n => simp [fsWrite, fsStat, dirLookup_dirWrite_self]
  | outside => exact absurd rfl h

theorem fsStat_fsWrite_ne (fs : FS) (t u : Target) (st : FileStat) (h : u ≠ t) :
    fsStat (fsWrite fs t st) u = fsStat fs u := by
  cases t with
  | uploadFile a =>
    cases u with
    | uploadFile b =>
      have hb : b ≠ a := fun hc => h (by rw [hc])
      simp [fsWrite, fsStat, dirLookup_dirWrite_ne _ _ _ _ hb]
    | staticFile b => simp [fsWrite, fsStat]
    | outside => simp [fsWrite, fsStat]
  | staticFile a =>
    cases u with
    | uploadFile b => simp [fsWrite, fsStat]
    | staticFile b =>
      have hb : b ≠ a := fun hc => h (by rw [hc])
      simp [fsWrite, fsStat, dirLookup_dirWrite_ne _ _ _ _ hb]
    | outside => simp [fsWrite, fsStat]
  | outside => rfl

theorem fsStat_fsRemove_self (fs : FS) (t : Target) : fsStat (fsRemove fs t) t = none := by
  cases t with
  | uploadFile n => simp [fsRemove, fsStat, dirLookup_dirRemove_self]
  | staticFile n => simp [fsRemove, fsStat, dirLookup_dirRemove_self]
  | outside => rfl

theorem fsStat_fsRemove_ne (fs : FS) (t u : Target) (h : u ≠ t) :
    fsStat (fsRemove fs t) u = fsStat fs u := by
  cases t with
  | uploadFile a =>
    cases u with
    | uploadFile b =>
      have hb : b ≠ a := fun hc => h (by rw [hc])
      simp [fsRemove, fsStat, dirLookup_dirRemove_ne _ _ _ hb]
    | staticFile b => simp [fsRemove, fsStat]
    | outside => simp [fsRemove, fsStat]
  | staticFile a =>
    cases u with
    | uploadFile b => simp [fsRemove, fsStat]
    | staticFile b =>
      have hb : b ≠ a := fun hc => h (by rw [hc])
      simp [fsRemove, fsStat, dirLookup_dirRemove_ne _ _ _ hb]
    | outside => simp [fsRemove, fsStat]
  | outside => rfl

theorem splitSlashAux_no_slash (cs : List Char) : ∀ cur, '/' ∉ cs →
    splitSlashAux cur cs = [String.mk (cur.reverse ++ cs)] := by
  induction cs with
  | nil => intro cur _; simp [splitSlashAux]
  | cons c cs ih =>
    intro cur h
    have hc : ¬ (c = '/') := by intro hc; exact h (by simp [hc])
    have hcs : '/' ∉ cs := fun hm => h (by simp [hm])
    simp only [splitSlashAux, if_neg hc]
    rw [ih (c :: cur) hcs]
    simp

theorem splitSlash_no_slash (s : String) (h : '/' ∉ s.data) : splitSlash s = [s] := by
  unfold splitSlash
  rw [splitSlashAux_no_slash s.data [] h]
  rfl

theorem stepSeg_push (st : List String) (s : String) (h1 : s ≠ "") (h2 : s ≠ ".") (h3 : s ≠ "..") :
    stepSeg (some st) s = some (st ++ [s]) := by
  simp only [stepSeg]
  rw [if_neg (not_or.mpr ⟨h1, h2⟩), if_neg h3]

theorem joinUpload_plain (s : String) (h0 : '/' ∉ s.data) (h1 : s ≠ "") (h2 : s ≠ ".")
    (h3 : s ≠ "..") : joinUpload s = .uploadFile s := by
  unfold joinUpload resolveJoin
  rw [splitSlash_no_slash s h0]
  simp only [List.foldl, stepSeg_push _ _ h1 h2 h3]
  rfl

theorem hasTrailSlash_no_slash (s : String) (h : '/' ∉ s.data) : hasTrailSlash s = false := by
  unfold hasTrailSlash
  cases hl : s.data.getLast? with
  | none => rfl
  | some c =>
    have hc : c ∈ s.data := List.mem_of_mem_getLast? hl
    have hne : ¬ (c = '/') := fun hcc => h (hcc ▸ hc)
    simp [hne]

theorem renameOpV1_guard (fs : FS) (id newName : String)
    (hm : strStartsWith staticMarker (decodeId id) = true) (hn : newName ≠ "") :
    renameOpV1 fs id newName = (fs, .fail 400 "静态部署的文件无法重命名") := by
  unfold renameOpV1
  rw [if_neg hn]
  simp [hm]

theorem deleteCore_guard (fs : FS) (id : String)
    (hm : strStartsWith staticMarker (decodeId id) = true) :
    deleteCore fs id = (fs, some (400, "static")) := by
  unfold deleteCore
  simp [hm]

theorem deleteOpV1_guard (fs : FS) (id : String)
    (hm : strStartsWith staticMarker (decodeId id) = true) :
    deleteOpV1 fs id = (fs, .fail 400 "静态部署的文件无法删除") := by
  unfold deleteOpV1
  rw [deleteCore_guard fs id hm]

theorem deleteOpV2_guard (fs : FS) (id : String)
    (hm : strStartsWith staticMarker (decodeId id) = true) :
    deleteOpV2 fs id = (fs, .fail 400 "静态文件无法删除") := by
  unfold deleteOpV2
  rw [deleteCore_guard fs id hm]

/-! ## Further helper lemmas -/

theorem allowV1_image (mime : String) (h : allowV1 mime = true) :
    strStartsWith "image/" mime = true := by
  have hmem : mime ∈ allowedTypesV1 := by simpa [allowV1] using h
  simp only [allowedTypesV1, List.mem_cons, List.mem_singleton, List.not_mem_nil, or_false] at hmem
  rcases hmem with rfl | rfl | rfl | rfl | rfl <;> decide

/-! ## Claim theorems -/

/-- C2: decoding the id produced by the id encoding recovers exactly the original
filename, including non-ASCII content, with the fixed static marker prefixed for
static files, and every character of an encoded id lies in the base64 alphabet or
is the padding character, a transport-safe ASCII form. -/
theorem c2_id_roundtrip (name : String) (st : FileStat) :
    decodeId (mkUploadRecord name st).id = name ∧
    decodeId (mkStaticRecord name st).id = staticMarker ++ name ∧
    (mkUploadRecord name st).id.data.all (fun c => b64Chars.contains c || c == '=') = true := by
  refine ⟨decodeId_encodeName name, decodeId_encodeName (staticMarker ++ name), ?_⟩
  rw [List.all_eq_true]
  intro c hc
  have hc2 : c ∈ base64Encode (utf8Encode name) := hc
  rcases base64Encode_chars (utf8Encode name) c hc2 with h | h
  · simp
    exact Or.inl h
  · simp [h]

/-- C3: for every id whose decoded filename carries the static-file marker, both
rename and delete fail with the static-guard forbidden error as a 400 payload,
in both server variants, and the filesystem is left unchanged. -/
theorem c3_static_guard (fs : FS) (id newName : String)
    (hmark : strStartsWith staticMarker (decodeId id) = true)
    (hname : newName ≠ "") :
    renameOpV1 fs id newName = (fs, RenameResp.fail 400 "静态部署的文件无法重命名") ∧
    deleteOpV1 fs id = (fs, DeleteResp.fail 400 "静态部署的文件无法删除") ∧
    deleteOpV2 fs id = (fs, DeleteResp.fail 400 "静态文件无法删除") :=
  ⟨renameOpV1_guard fs id newName hmark hname,
   deleteOpV1_guard fs id hmark, deleteOpV2_guard fs id hmark⟩

/-- C3 witness: the guard fires on the id of a marker-carrying name at a concrete
filesystem, for rename and for both delete variants. -/
theorem c3_static_guard_witness :
    strStartsWith staticMarker (decodeId (encodeName "public_x.png")) = true ∧
    renameOpV1 { upload := [], staticDir := [] } (encodeName "public_x.png") "y.png"
      = ({ upload := [], staticDir := [] }, RenameResp.fail 400 "静态部署的文件无法重命名") ∧
    deleteOpV1 { upload := [], staticDir := [] } (encodeName "public_x.png")
      = ({ upload := [], staticDir := [] }, DeleteResp.fail 400 "静态部署的文件无法删除") ∧
    deleteOpV2 { upload := [], staticDir := [] } (encodeName "public_x.png")
      = ({ upload := [], staticDir := [] }, DeleteResp.fail 400 "静态文件无法删除") := by
  have h := c3_static_guard { upload := [], staticDir := [] } (encodeName "public_x.png") "y.png"
    (by decide) (by decide)
  exact ⟨by decide, h.1, h.2.1, h.2.2⟩

/-- C1: REFUTED by the code, which contradicts its own static-file guard. An id
decoding to a parent-traversal path slips past the marker check, the joined path
resolves into the static directory, and delete unlinks the static file: here the
static asset logo.png is removed from the static directory by a delete request. -/
theorem c1_static_file_deleted_by_traversal :
    decodeId "Li4vZGlzdC9sb2dvLnBuZw==" = "../dist/logo.png" ∧
    strStartsWith staticMarker "../dist/logo.png" = false ∧
    joinUpload "../dist/logo.png" = Target.staticFile "logo.png" ∧
    deleteOpV1 { upload := [("a.png", ⟨7, 0, 3, true⟩)],
                 staticDir := [("logo.png", ⟨10, 0, 0, true⟩)] } "Li4vZGlzdC9sb2dvLnBuZw=="
      = ({ upload := [("a.png", ⟨7, 0, 3, true⟩)], staticDir := [] },
         DeleteResp.ok (some "文件删除成功")) := by
  decide

/-- C4: REFUTED as stated. With the source upload public_a.png present and the
destination b.png also present, the rename is rejected by the static-marker
guard on the decoded name before the conflict check runs, so it does not fail
with the conflict error. -/
theorem c4_counterexample :
    fsExistsAt { upload := [("public_a.png", ⟨10, 0, 5, true⟩), ("b.png", ⟨3, 0, 2, true⟩)],
                 staticDir := [] }
        (joinUpload (decodeId (encodeName "public_a.png")))
        (hasTrailSlash (decodeId (encodeName "public_a.png"))) = true ∧
    fsExistsAt { upload := [("public_a.png", ⟨10, 0, 5, true⟩), ("b.png", ⟨3, 0, 2, true⟩)],
                 staticDir := [] } (joinUpload "b.png") (hasTrailSlash "b.png") = true ∧
    renameOpV1 { upload := [("public_a.png", ⟨10, 0, 5, true⟩), ("b.png", ⟨3, 0, 2, true⟩)],
                 staticDir := [] } (encodeName "public_a.png") "b.png"
      ≠ ({ upload := [("public_a.png", ⟨10, 0, 5, true⟩), ("b.png", ⟨3, 0, 2, true⟩)],
           staticDir := [] }, RenameResp.fail 400 "目标文件名已存在") ∧
    renameOpV1 { upload := [("public_a.png", ⟨10, 0, 5, true⟩), ("b.png", ⟨3, 0, 2, true⟩)],
                 staticDir := [] } (encodeName "public_a.png") "b.png"
      = ({ upload := [("public_a.png", ⟨10, 0, 5, true⟩), ("b.png", ⟨3, 0, 2, true⟩)],
           staticDir := [] }, RenameResp.fail 400 "静态部署的文件无法重命名") := by
  decide

/-- C4 amended: for every rename whose decoded source name does not carry the
static marker, when the source file exists and a file already exists at the
destination, the operation fails with the conflict error and the filesystem,
hence both files, is left untouched. -/
theorem c4_conflict_leaves_files (fs : FS) (id newName : String)
    (hmark : strStartsWith staticMarker (decodeId id) = false)
    (hsrc : fsExistsAt fs (joinUpload (decodeId id)) (hasTrailSlash (decodeId id)) = true)
    (hdst : fsExistsAt fs (joinUpload newName) (hasTrailSlash newName) = true) :
    renameOpV1 fs id newName = (fs, RenameResp.fail 400 "目标文件名已存在") := by
  have hname : newName ≠ "" := by
    intro h
    rw [h] at hdst
    have : fsExistsAt fs (joinUpload "") (hasTrailSlash "") = false := rfl
    rw [this] at hdst
    exact Bool.false_ne_true hdst
  unfold renameOpV1
  rw [if_neg hname]
  simp [hmark, hsrc, hdst]

/-- C4 amended witness: the conflict error on a concrete filesystem holding both
the source and the destination. -/
theorem c4_conflict_leaves_files_witness :
    renameOpV1 { upload := [("a.png", ⟨10, 0, 5, true⟩), ("b.png", ⟨3, 0, 2, true⟩)],
                 staticDir := [] } (encodeName "a.png") "b.png"
      = ({ upload := [("a.png", ⟨10, 0, 5, true⟩), ("b.png", ⟨3, 0, 2, true⟩)],
           staticDir := [] }, RenameResp.fail 400 "目标文件名已存在") :=
  c4_conflict_leaves_files
    { upload := [("a.png", ⟨10, 0, 5, true⟩), ("b.png", ⟨3, 0, 2, true⟩)], staticDir := [] }
    (encodeName "a.png") "b.png" (by decide) (by decide) (by decide)

/-- C6: an upload is rejected, with the filesystem unchanged so nothing written,
when the declared MIME type fails the filter of the variant or when the size
exceeds the fixed ceiling of the variant, and a MIME type outside image is
rejected by both variants. -/
theorem c6_upload_validation (fs : FS) (origName mime : String) (size now : Nat) :
    (allowV1 mime = false → uploadV1 fs origName mime size now = (fs, UploadResult.badType)) ∧
    (strStartsWith "image/" mime = false →
      uploadV1 fs origName mime size now = (fs, UploadResult.badType) ∧
      uploadV2 fs origName mime size now = (fs, UploadResult.badType)) ∧
    (limitV1 < size → allowV1 mime = true →
      uploadV1 fs origName mime size now = (fs, UploadResult.tooLarge)) ∧
    (limitV2 < size → allowV2 mime = true →
      uploadV2 fs origName mime size now = (fs, UploadResult.tooLarge)) := by
  refine ⟨?_, ?_, ?_, ?_⟩
  · intro h
    unfold uploadV1 uploadOp
    simp [h]
  · intro h
    have hv1 : allowV1 mime = false := by
      cases hv : allowV1 mime
      · rfl
      · exact absurd (allowV1_image mime hv) (by simp [h])
    have hv2 : allowV2 mime = false := h
    constructor
    · unfold uploadV1 uploadOp
      simp [hv1]
    · unfold uploadV2 uploadOp
      simp [hv2]
  · intro hsz hal
    unfold uploadV1 uploadOp
    simp [hal, hsz]
  · intro hsz hal
    unfold uploadV2 uploadOp
    simp [hal, hsz]

/-- C6 witness: concrete rejections for a non-image MIME type in both variants
and for oversize uploads in both variants, each leaving the filesystem empty. -/
theorem c6_upload_validation_witness :
    uploadV1 { upload := [], staticDir := [] } "a.png" "text/plain" 5 0
      = ({ upload := [], staticDir := [] }, UploadResult.badType) ∧
    uploadV2 { upload := [], staticDir := [] } "a.png" "text/plain" 5 0
      = ({ upload := [], staticDir := [] }, UploadResult.badType) ∧
    uploadV1 { upload := [], staticDir := [] } "a.png" "image/png" (limitV1 + 1) 0
      = ({ upload := [], staticDir := [] }, UploadResult.tooLarge) ∧
    uploadV2 { upload := [], staticDir := [] } "a.png" "image/png" (limitV2 + 1) 0
      = ({ upload := [], staticDir := [] }, UploadResult.tooLarge) := by
  have h1 := (c6_upload_validation { upload := [], staticDir := [] } "a.png" "text/plain" 5 0).2.1
    (by decide)
  have h2 := (c6_upload_validation { upload := [], staticDir := [] } "a.png" "image/png"
    (limitV1 + 1) 0).2.2.1 (by decide) (by decide)
  have h3 := (c6_upload_validation { upload := [], staticDir := [] } "a.png" "image/png"
    (limitV2 + 1) 0).2.2.2 (by decide) (by decide)
  exact ⟨h1.1, h1.2, h2, h3⟩

/-- C10: the id that the listing assigns to a static asset named n is the same
string as the id it assigns to an uploaded asset named n with the marker
prefixed, so ids are not unique across provenance, and rename and delete on that
id are always rejected as a static-file mutation even though the file sits in
the mutable upload directory. -/
theorem c10_id_collision (fs : FS) (n newName : String) (st : FileStat)
    (_hmem : dirLookup fs.upload (staticMarker ++ n) = some st)
    (hname : newName ≠ "") :
    (mkUploadRecord (staticMarker ++ n) st).id = (mkStaticRecord n st).id ∧
    renameOpV1 fs (mkUploadRecord (staticMarker ++ n) st).id newName
      = (fs, RenameResp.fail 400 "静态部署的文件无法重命名") ∧
    deleteOpV1 fs (mkUploadRecord (staticMarker ++ n) st).id
      = (fs, DeleteResp.fail 400 "静态部署的文件无法删除") := by
  have hmark : strStartsWith staticMarker (decodeId (encodeName (staticMarker ++ n))) = true := by
    rw [decodeId_encodeName (staticMarker ++ n)]
    exact strStartsWith_append staticMarker n
  exact ⟨rfl, renameOpV1_guard fs _ newName hmark hname, deleteOpV1_guard fs _ hmark⟩

/-- C10 witness: a concrete uploaded file whose name starts with the marker
shares its id with the static asset of the unprefixed name and cannot be renamed
or deleted. -/
theorem c10_id_collision_witness :
    (mkUploadRecord (staticMarker ++ "x.png") ⟨4, 0, 1, true⟩).id
      = (mkStaticRecord "x.png" ⟨4, 0, 1, true⟩).id ∧
    renameOpV1 { upload := [("public_x.png", ⟨4, 0, 1, true⟩)], staticDir := [] }
        (mkUploadRecord (staticMarker ++ "x.png") ⟨4, 0, 1, true⟩).id "y.png"
      = ({ upload := [("public_x.png", ⟨4, 0, 1, true⟩)], staticDir := [] },
         RenameResp.fail 400 "静态部署的文件无法重命名") ∧
    deleteOpV1 { upload := [("public_x.png", ⟨4, 0, 1, true⟩)], staticDir := [] }
        (mkUploadRecord (staticMarker ++ "x.png") ⟨4, 0, 1, true⟩).id
      = ({ upload := [("public_x.png", ⟨4, 0, 1, true⟩)], staticDir := [] },
         DeleteResp.fail 400 "静态部署的文件无法删除") :=
  c10_id_collision { upload := [("public_x.png", ⟨4, 0, 1, true⟩)], staticDir := [] }
    "x.png" "y.png" ⟨4, 0, 1, true⟩ (by decide) (by decide)

/-! ## Inversion lemmas for successful operations -/

theorem boolNotTrue {b : Bool} (h : ¬ b = true) : b = false := by
  cases b
  · rfl
  · exact absurd rfl h

theorem boolNotFalse {b : Bool} (h : ¬ b = false) : b = true := by
  cases b
  · exact absurd rfl h
  · rfl

theorem renameOpV1_ok_inversion (fs fs2 : FS) (id newName : String) (r : AssetRecord)
    (h : renameOpV1 fs id newName = (fs2, RenameResp.ok r)) :
    ∃ st, newName ≠ "" ∧
      strStartsWith staticMarker (decodeId id) = false ∧
      fsStat fs (joinUpload (decodeId id)) = some st ∧
      fsExistsAt fs (joinUpload (decodeId id)) (hasTrailSlash (decodeId id)) = true ∧
      fsExistsAt fs (joinUpload newName) (hasTrailSlash newName) = false ∧
      ¬(joinUpload newName = Target.outside ∨ (hasTrailSlash newName && st.isFile) = true) ∧
      fs2 = fsWrite (fsRemove fs (joinUpload (decodeId id))) (joinUpload newName) st ∧
      r = { id := encodeName newName, name := newName,
            url := "/uploads/" ++ uriEncode newName, size := st.size,
            createdAt := st.birth, modifiedAt := st.mtime, isUploaded := true } := by
  by_cases h1 : newName = ""
  · rw [renameOpV1, if_pos h1] at h
    simp at h
  · rw [renameOpV1, if_neg h1] at h
    simp only [] at h
    by_cases h2 : strStartsWith staticMarker (decodeId id) = true
    · rw [if_pos h2] at h
      simp at h
    · rw [if_neg h2] at h
      by_cases h3 : fsExistsAt fs (joinUpload (decodeId id)) (hasTrailSlash (decodeId id)) = false
      · rw [if_pos h3] at h
        simp at h
      · rw [if_neg h3] at h
        by_cases h4 : fsExistsAt fs (joinUpload newName) (hasTrailSlash newName) = true
        · rw [if_pos h4] at h
          simp at h
        · rw [if_neg h4] at h
          rcases hstat : fsStat fs (joinUpload (decodeId id)) with _ | st
          · simp [hstat] at h
          · simp only [hstat] at h
            by_cases h5 : joinUpload newName = Target.outside ∨
                (hasTrailSlash newName && st.isFile) = true
            · rw [if_pos h5] at h
              simp at h
            · rw [if_neg h5] at h
              simp only [Prod.mk.injEq, RenameResp.ok.injEq] at h
              exact ⟨st, h1, boolNotTrue h2, rfl, boolNotFalse h3, boolNotTrue h4, h5,
                h.1.symm, h.2.symm⟩

theorem deleteCore_none_inversion (fs fs2 : FS) (id : String)
    (h : deleteCore fs id = (fs2, none)) :
    ∃ st, strStartsWith staticMarker (decodeId id) = false ∧
      fsStat fs (joinUpload (decodeId id)) = some st ∧ st.isFile = true ∧
      fsExistsAt fs (joinUpload (decodeId id)) (hasTrailSlash (decodeId id)) = true ∧
      fs2 = fsRemove fs (joinUpload (decodeId id)) := by
  by_cases h1 : strStartsWith staticMarker (decodeId id) = true
  · rw [deleteCore] at h
    simp only [h1, if_true] at h
    simp at h
  · rw [deleteCore] at h
    simp only [] at h
    rw [if_neg h1] at h
    by_cases h2 : fsExistsAt fs (joinUpload (decodeId id)) (hasTrailSlash (decodeId id)) = false
    · rw [if_pos h2] at h
      simp at h
    · rw [if_neg h2] at h
      rcases hstat : fsStat fs (joinUpload (decodeId id)) with _ | st
      · simp [hstat] at h
      · simp only [hstat] at h
        by_cases h3 : st.isFile = true
        · rw [if_pos h3] at h
          simp only [Prod.mk.injEq] at h
          exact ⟨st, boolNotTrue h1, rfl, h3, boolNotFalse h2, h.1.symm⟩
        · rw [if_neg h3] at h
          simp at h

theorem deleteOpV1_ok_inversion (fs fs2 : FS) (id : String) (msg : Option String)
    (h : deleteOpV1 fs id = (fs2, DeleteResp.ok msg)) :
    deleteCore fs id = (fs2, none) ∧ msg = some "文件删除成功" := by
  rw [deleteOpV1] at h
  split at h
  · rename_i fs3 heq
    simp only [Prod.mk.injEq, DeleteResp.ok.injEq] at h
    rw [h.1] at heq
    exact ⟨heq, h.2.symm⟩
  · simp at h
  · simp at h
  · simp at h

theorem listFiles_mem_iff (fs : FS) (r : AssetRecord) :
    r ∈ listFiles fs ↔ r ∈ uploadRecords fs.upload ++ staticRecords fs.staticDir := by
  unfold listFiles
  exact (List.mergeSort_perm _ _).mem_iff

theorem uploadRecords_mem (d : DirListing) (r : AssetRecord) (h : r ∈ uploadRecords d) :
    ∃ e ∈ d, e.2.isFile = true ∧ r = mkUploadRecord e.1 e.2 := by
  unfold uploadRecords at h
  rw [List.mem_filterMap] at h
  obtain ⟨e, he, hif⟩ := h
  by_cases hf : e.2.isFile = true
  · rw [if_pos hf] at hif
    exact ⟨e, he, hf, (Option.some.injEq _ _).mp hif |>.symm⟩
  · rw [if_neg hf] at hif
    simp at hif

theorem staticRecords_mem (d : DirListing) (r : AssetRecord) (h : r ∈ staticRecords d) :
    ∃ e ∈ d, (hasImageExt e.1 && e.2.isFile) = true ∧ r = mkStaticRecord e.1 e.2 := by
  unfold staticRecords at h
  rw [List.mem_filterMap] at h
  obtain ⟨e, he, hif⟩ := h
  by_cases hf : (hasImageExt e.1 && e.2.isFile) = true
  · rw [if_pos hf] at hif
    exact ⟨e, he, hf, (Option.some.injEq _ _).mp hif |>.symm⟩
  · rw [if_neg hf] at hif
    simp at hif

theorem mem_dirRemove_name_ne (d : DirListing) (m : String) (e : String × FileStat)
    (h : e ∈ dirRemove d m) : e.1 ≠ m := by
  induction d with
  | nil => simp [dirRemove] at h
  | cons f d ih =>
    by_cases hf : f.1 = m
    · rw [dirRemove, if_pos hf] at h
      exact ih h
    · rw [dirRemove, if_neg hf] at h
      rcases List.mem_cons.mp h with rfl | hmem
      · exact hf
      · exact ih hmem

/-- C5: for every successful rename, the returned record carries name newName and
an id that is the encoding of newName, that id differs from the request id, and
the old id subsequently resolves to not found in a later delete or rename. -/
theorem c5_rename_success (fs fs2 : FS) (id newName : String) (r : AssetRecord)
    (h : renameOpV1 fs id newName = (fs2, RenameResp.ok r)) :
    r.name = newName ∧ r.id = encodeName newName ∧ r.id ≠ id ∧
    (deleteOpV1 fs2 id).2 = DeleteResp.fail 404 "文件不存在" ∧
    ∀ n2, n2 ≠ "" → (renameOpV1 fs2 id n2).2 = RenameResp.fail 404 "文件不存在" := by
  obtain ⟨st, hn, hmark, hstat, hsrc, hdst, hout, hfs2, hr⟩ :=
    renameOpV1_ok_inversion fs fs2 id newName r h
  have hne : joinUpload (decodeId id) ≠ joinUpload newName := by
    intro he
    rw [he] at hstat
    simp only [fsExistsAt, hstat] at hdst
    simp at hdst
    exact hout (Or.inr (by rw [hdst.1, hdst.2]; rfl))
  have hgone : fsStat fs2 (joinUpload (decodeId id)) = none := by
    rw [hfs2, fsStat_fsWrite_ne _ _ _ _ hne, fsStat_fsRemove_self]
  have hnotexists :
      fsExistsAt fs2 (joinUpload (decodeId id)) (hasTrailSlash (decodeId id)) = false := by
    simp only [fsExistsAt, hgone]
  have hdc : deleteCore fs2 id = (fs2, some (404, "missing")) := by
    rw [deleteCore]
    simp only []
    rw [if_neg (by simp [hmark]), if_pos hnotexists]
  refine ⟨by rw [hr], by rw [hr], ?_, ?_, ?_⟩
  · rw [hr]
    intro hid
    have hdecode : decodeId id = newName := by
      rw [← hid, decodeId_encodeName]
    exact hne (by rw [hdecode])
  · rw [deleteOpV1, hdc]
  · intro n2 hn2
    rw [renameOpV1, if_neg hn2]
    simp only []
    rw [if_neg (by simp [hmark]), if_pos hnotexists]

/-- C9: a successful delete of an upload-directory asset responds success, with
the status message and no record payload in variant 1 and the bare success in
variant 2, and the deleted file no longer appears in any subsequent listing. -/
theorem c9_delete_success (fs fs2 : FS) (id m : String) (msg : Option String)
    (hdel : deleteOpV1 fs id = (fs2, DeleteResp.ok msg))
    (ht : joinUpload (decodeId id) = Target.uploadFile m) :
    msg = some "文件删除成功" ∧
    fs2 = { fs with upload := dirRemove fs.upload m } ∧
    deleteOpV2 fs id = (fs2, DeleteResp.ok none) ∧
    ∀ r, r ∈ listFiles fs2 → r.isUploaded = true → r.name ≠ m := by
  obtain ⟨hcore, hmsg⟩ := deleteOpV1_ok_inversion fs fs2 id msg hdel
  obtain ⟨st, hmark, hstat, hfile, hex, hfs2⟩ := deleteCore_none_inversion fs fs2 id hcore
  have hfs2' : fs2 = { fs with upload := dirRemove fs.upload m } := by
    rw [hfs2, ht]
    rfl
  have hup : fs2.upload = dirRemove fs.upload m := by
    rw [hfs2']
  refine ⟨hmsg, hfs2', ?_, ?_⟩
  · rw [deleteOpV2, hcore]
  · intro r hr hupl
    rw [listFiles_mem_iff] at hr
    rcases List.mem_append.mp hr with h1 | h1
    · obtain ⟨e, he, hef, hre⟩ := uploadRecords_mem _ _ h1
      have hene : e.1 ≠ m := by
        rw [hup] at he
        exact mem_dirRemove_name_ne fs.upload m e he
      rw [hre]
      exact hene
    · obtain ⟨e, he, hcond, hre⟩ := staticRecords_mem _ _ h1
      rw [hre] at hupl
      simp [mkStaticRecord] at hupl

/-- C5 witness: a concrete successful rename returns the record named by the new
name with the re-encoded id, and the old id then yields not found for delete and
for a later rename. -/
theorem c5_rename_success_witness :
    (renameOpV1 { upload := [("a.png", ⟨10, 0, 5, true⟩)], staticDir := [] }
        (encodeName "a.png") "c.png").2
      = RenameResp.ok { id := encodeName "c.png", name := "c.png",
                        url := "/uploads/c.png", size := 10, createdAt := 0,
                        modifiedAt := 5, isUploaded := true } ∧
    (deleteOpV1 { upload := [("c.png", ⟨10, 0, 5, true⟩)], staticDir := [] }
        (encodeName "a.png")).2 = DeleteResp.fail 404 "文件不存在" ∧
    (renameOpV1 { upload := [("c.png", ⟨10, 0, 5, true⟩)], staticDir := [] }
        (encodeName "a.png") "d.png").2 = RenameResp.fail 404 "文件不存在" := by
  have h := c5_rename_success
    { upload := [("a.png", ⟨10, 0, 5, true⟩)], staticDir := [] }
    { upload := [("c.png", ⟨10, 0, 5, true⟩)], staticDir := [] }
    (encodeName "a.png") "c.png"
    { id := encodeName "c.png", name := "c.png", url := "/uploads/c.png", size := 10,
      createdAt := 0, modifiedAt := 5, isUploaded := true }
    (by decide)
  exact ⟨by decide, h.2.2.2.1, h.2.2.2.2 "d.png" (by decide)⟩

/-- C9 witness: deleting a concrete uploaded file succeeds in both variants and
the file is absent from the subsequent listing. -/
theorem c9_delete_success_witness :
    deleteOpV2 { upload := [("a.png", ⟨7, 0, 3, true⟩)], staticDir := [] }
        (encodeName "a.png")
      = ({ upload := [], staticDir := [] }, DeleteResp.ok none) ∧
    mkUploadRecord "a.png" ⟨7, 0, 3, true⟩ ∉
      listFiles { upload := [], staticDir := [] } := by
  have h := c9_delete_success { upload := [("a.png", ⟨7, 0, 3, true⟩)], staticDir := [] }
    { upload := [], staticDir := [] } (encodeName "a.png") "a.png"
    (some "文件删除成功") (by decide) (by decide)
  refine ⟨h.2.2.1, ?_⟩
  intro hmem
  exact h.2.2.2 _ hmem rfl rfl

/-- C8: the listing is a permutation of the upload-directory records, kept
regardless of type, and the static-directory records, kept only when the name
passes the image-extension filter, and it is sorted in descending order of
modification time. -/
theorem c8_list_spec (fs : FS) :
    (listFiles fs).Perm (uploadRecords fs.upload ++ staticRecords fs.staticDir) ∧
    (listFiles fs).Pairwise (fun a b => b.modifiedAt ≤ a.modifiedAt) ∧
    (∀ n st, (n, st) ∈ fs.upload → st.isFile = true → mkUploadRecord n st ∈ listFiles fs) ∧
    (∀ n st, (n, st) ∈ fs.staticDir → st.isFile = true →
      (mkStaticRecord n st ∈ listFiles fs ↔ hasImageExt n = true)) := by
  refine ⟨List.mergeSort_perm _ _, ?_, ?_, ?_⟩
  · have htrans : ∀ a b c : AssetRecord, newerFirst a b = true → newerFirst b c = true →
        newerFirst a c = true := by
      intro a b c hab hbc
      unfold newerFirst at hab hbc ⊢
      exact decide_eq_true (le_trans (of_decide_eq_true hbc) (of_decide_eq_true hab))
    have htotal : ∀ a b : AssetRecord, (newerFirst a b || newerFirst b a) = true := by
      intro a b
      unfold newerFirst
      rcases Int.le_total a.modifiedAt b.modifiedAt with h | h
      · simp [h]
      · simp [h]
    have hp := List.sorted_mergeSort htrans htotal
      (uploadRecords fs.upload ++ staticRecords fs.staticDir)
    have heq : listFiles fs
        = (uploadRecords fs.upload ++ staticRecords fs.staticDir).mergeSort newerFirst := rfl
    rw [heq]
    exact hp.imp (fun hab => of_decide_eq_true hab)
  · intro n st hmem hfile
    rw [listFiles_mem_iff]
    refine List.mem_append.mpr (Or.inl ?_)
    unfold uploadRecords
    rw [List.mem_filterMap]
    exact ⟨(n, st), hmem, by rw [if_pos hfile]⟩
  · intro n st hmem hfile
    constructor
    · intro hin
      rw [listFiles_mem_iff] at hin
      rcases List.mem_append.mp hin with h1 | h1
      · obtain ⟨e, _, hef, hre⟩ := uploadRecords_mem _ _ h1
        have hbad : (mkStaticRecord n st).isUploaded = (mkUploadRecord e.1 e.2).isUploaded := by
          rw [← hre]
        simp [mkStaticRecord, mkUploadRecord] at hbad
      · obtain ⟨e, _, hcond, hre⟩ := staticRecords_mem _ _ h1
        have hname : n = e.1 := by
          have := congrArg AssetRecord.name hre
          simpa [mkStaticRecord] using this
        rw [hname]
        have hcond2 : hasImageExt e.1 = true ∧ e.2.isFile = true := by
          simpa using hcond
        exact hcond2.1
    · intro hext
      rw [listFiles_mem_iff]
      refine List.mem_append.mpr (Or.inr ?_)
      unfold staticRecords
      rw [List.mem_filterMap]
      exact ⟨(n, st), hmem, by rw [if_pos (by simp [hext, hfile])]⟩

/-- C8 witness: on a concrete filesystem the listing keeps a non-image upload
entry, keeps an image static entry, and drops a non-image static entry. -/
theorem c8_list_spec_witness :
    mkUploadRecord "notes.txt" ⟨1, 0, 7, true⟩ ∈
      listFiles { upload := [("notes.txt", ⟨1, 0, 7, true⟩)],
                  staticDir := [("logo.png", ⟨2, 0, 6, true⟩), ("x.html", ⟨2, 0, 8, true⟩)] } ∧
    mkStaticRecord "logo.png" ⟨2, 0, 6, true⟩ ∈
      listFiles { upload := [("notes.txt", ⟨1, 0, 7, true⟩)],
                  staticDir := [("logo.png", ⟨2, 0, 6, true⟩), ("x.html", ⟨2, 0, 8, true⟩)] } ∧
    mkStaticRecord "x.html" ⟨2, 0, 8, true⟩ ∉
      listFiles { upload := [("notes.txt", ⟨1, 0, 7, true⟩)],
                  staticDir := [("logo.png", ⟨2, 0, 6, true⟩), ("x.html", ⟨2, 0, 8, true⟩)] } := by
  have h := c8_list_spec { upload := [("notes.txt", ⟨1, 0, 7, true⟩)],
                           staticDir := [("logo.png", ⟨2, 0, 6, true⟩),
                                         ("x.html", ⟨2, 0, 8, true⟩)] }
  refine ⟨h.2.2.1 "notes.txt" ⟨1, 0, 7, true⟩ (by decide) (by decide), ?_, ?_⟩
  · exact (h.2.2.2 "logo.png" ⟨2, 0, 6, true⟩ (by decide) (by decide)).mpr (by decide)
  · intro hmem
    have := (h.2.2.2 "x.html" ⟨2, 0, 8, true⟩ (by decide) (by decide)).mp hmem
    exact absurd this (by decide)

/-! ## Lemmas for the upload filename callback -/

theorem digitChar_ne_slash (m : Nat) : Nat.digitChar m ≠ '/' := by
  rcases Nat.lt_or_ge m 16 with h | h
  · interval_cases m <;> decide
  · have hne : ∀ k, k < 16 → ¬ (m = k) := by
      intro k hk he
      omega
    have hstar : Nat.digitChar m = '*' := by
      unfold Nat.digitChar
      rw [if_neg (hne 0 (by norm_num))]
      rw [if_neg (hne 1 (by norm_num)), if_neg (hne 2 (by norm_num))]
      rw [if_neg (hne 3 (by norm_num)), if_neg (hne 4 (by norm_num))]
      rw [if_neg (hne 5 (by norm_num)), if_neg (hne 6 (by norm_num))]
      rw [if_neg (hne 7 (by norm_num)), if_neg (hne 8 (by norm_num))]
      rw [if_neg (hne 9 (by norm_num)), if_neg (hne 10 (by norm_num))]
      rw [if_neg (hne 11 (by norm_num)), if_neg (hne 12 (by norm_num))]
      rw [if_neg (hne 13 (by norm_num)), if_neg (hne 14 (by norm_num))]
      rw [if_neg (hne 15 (by norm_num))]
    rw [hstar]
    decide

theorem toDigitsCore_ne_slash : ∀ (fuel n : Nat) (acc : List Char),
    (∀ c ∈ acc, c ≠ '/') → ∀ c ∈ Nat.toDigitsCore 10 fuel n acc, c ≠ '/' := by
  intro fuel
  induction fuel with
  | zero =>
    intro n acc hacc c hc
    exact hacc c (by simpa only [Nat.toDigitsCore] using hc)
  | succ f ih =>
    intro n acc hacc c hc
    have hstep : ∀ x ∈ Nat.digitChar (n % 10) :: acc, x ≠ '/' := by
      intro x hx
      cases List.mem_cons.mp hx with
      | inl hhead => exact hhead ▸ digitChar_ne_slash (n % 10)
      | inr htail => exact hacc x htail
    simp only [Nat.toDigitsCore] at hc
    split at hc
    · exact hstep c hc
    · exact ih (n / 10) (Nat.digitChar (n % 10) :: acc) hstep c hc

theorem natRepr_ne_slash (n : Nat) : ∀ c ∈ (Nat.repr n).data, c ≠ '/' := by
  intro c hc
  refine toDigitsCore_ne_slash (n + 1) n [] (by simp) c ?_
  have hrepr : (Nat.repr n).data = Nat.toDigitsCore 10 (n + 1) n [] := by
    rw [Nat.repr, Nat.toDigits]
    rfl
  exact hrepr ▸ hc

theorem lastSlashSeg_no_slash (s : String) (h : '/' ∉ s.data) : lastSlashSeg s = s := by
  unfold lastSlashSeg
  rw [splitSlash_no_slash s h]
  rfl

theorem nodeBase_append_ext (s : String) :
    (nodeBaseName s).data ++ (nodeExtname s).data = (lastSlashSeg s).data := by
  unfold nodeBaseName nodeExtname
  exact List.take_append_drop _ _

theorem strAppend_data (a b : String) : (a ++ b).data = a.data ++ b.data :=
  String.data_append a b

/-- C7: when a plain declared name collides with an existing upload-directory
file, the stored filename is the original base name with the upload timestamp
appended before the extension, so uploading the same filename twice yields two
distinct entries, the second disambiguated by the suffix. -/
theorem c7_duplicate_upload (fs : FS) (origName mime : String) (s1 s2 t1 t2 : Nat)
    (hslash : '/' ∉ origName.data)
    (hne : origName ≠ "") (hnd : origName ≠ ".") (hnd2 : origName ≠ "..")
    (hfresh : dirLookup fs.upload origName = none)
    (hmime : allowV1 mime = true) (hs1 : s1 ≤ limitV1) (hs2 : s2 ≤ limitV1) :
    uploadV1 fs origName mime s1 t1
      = ((fsWrite fs (Target.uploadFile origName) ⟨s1, (t1 : Int), (t1 : Int), true⟩),
         UploadResult.ok { id := encodeName origName, name := origName,
                           url := "/uploads/" ++ uriEncode origName, size := s1,
                           createdAt := (t1 : Int), modifiedAt := (t1 : Int),
                           isUploaded := true }) ∧
    storedUploadName (fsWrite fs (Target.uploadFile origName) ⟨s1, (t1 : Int), (t1 : Int), true⟩) origName t2 = (nodeBaseName origName ++ "_" ++ Nat.repr t2 ++ nodeExtname origName) ∧
    (nodeBaseName origName ++ "_" ++ Nat.repr t2 ++ nodeExtname origName) ≠ origName ∧
    (uploadV1 (fsWrite fs (Target.uploadFile origName) ⟨s1, (t1 : Int), (t1 : Int), true⟩) origName mime s2 t2).2
      = UploadResult.ok { id := encodeName (nodeBaseName origName ++ "_" ++ Nat.repr t2 ++ nodeExtname origName), name := (nodeBaseName origName ++ "_" ++ Nat.repr t2 ++ nodeExtname origName),
                          url := "/uploads/" ++ uriEncode (nodeBaseName origName ++ "_" ++ Nat.repr t2 ++ nodeExtname origName), size := s2,
                          createdAt := (t2 : Int), modifiedAt := (t2 : Int),
                          isUploaded := true } ∧
    dirLookup ((uploadV1 (fsWrite fs (Target.uploadFile origName) ⟨s1, (t1 : Int), (t1 : Int), true⟩) origName mime s2 t2).1).upload origName
      = some ⟨s1, (t1 : Int), (t1 : Int), true⟩ ∧
    dirLookup ((uploadV1 (fsWrite fs (Target.uploadFile origName) ⟨s1, (t1 : Int), (t1 : Int), true⟩) origName mime s2 t2).1).upload (nodeBaseName origName ++ "_" ++ Nat.repr t2 ++ nodeExtname origName)
      = some ⟨s2, (t2 : Int), (t2 : Int), true⟩ := by
  have hplain := joinUpload_plain origName hslash hne hnd hnd2
  have htrail := hasTrailSlash_no_slash origName hslash
  have hseg := lastSlashSeg_no_slash origName hslash
  have hstored1 : storedUploadName fs origName t1 = origName := by
    unfold storedUploadName
    rw [if_neg ?hc]
    case hc =>
      rw [hplain, htrail]
      simp [fsExistsAt, fsStat, hfresh]
  have hup1 : uploadV1 fs origName mime s1 t1
      = ((fsWrite fs (Target.uploadFile origName) ⟨s1, (t1 : Int), (t1 : Int), true⟩),
         UploadResult.ok { id := encodeName origName, name := origName,
                           url := "/uploads/" ++ uriEncode origName, size := s1,
                           createdAt := (t1 : Int), modifiedAt := (t1 : Int),
                           isUploaded := true }) := by
    unfold uploadV1 uploadOp
    rw [if_neg (by simp [hmime]), if_neg (Nat.not_lt.mpr hs1)]
    simp only [hstored1, hplain, htrail]
    rw [if_neg (by simp)]
  have hexist2 : fsExistsAt (fsWrite fs (Target.uploadFile origName) ⟨s1, (t1 : Int), (t1 : Int), true⟩) (joinUpload origName) (hasTrailSlash origName) = true := by
    rw [hplain, htrail]
    simp only [fsExistsAt]
    rw [fsStat_fsWrite_self fs (Target.uploadFile origName) _ (by simp)]
    rfl
  have hstored2 : storedUploadName (fsWrite fs (Target.uploadFile origName) ⟨s1, (t1 : Int), (t1 : Int), true⟩) origName t2 = (nodeBaseName origName ++ "_" ++ Nat.repr t2 ++ nodeExtname origName) := by
    unfold storedUploadName
    rw [if_pos hexist2]
  have hdata : ((nodeBaseName origName ++ "_" ++ Nat.repr t2 ++ nodeExtname origName)).data
      = (nodeBaseName origName).data ++ "_".data ++ (Nat.repr t2).data
        ++ (nodeExtname origName).data := by
    rw [strAppend_data, strAppend_data, strAppend_data]
  have hbase_sub : ∀ c ∈ (nodeBaseName origName).data, c ∈ origName.data := by
    intro c hc
    have hc2 : c ∈ (lastSlashSeg origName).data.take (extStart (lastSlashSeg origName).data) := hc
    rw [hseg] at hc2
    exact List.take_subset _ _ hc2
  have hext_sub : ∀ c ∈ (nodeExtname origName).data, c ∈ origName.data := by
    intro c hc
    have hc2 : c ∈ (lastSlashSeg origName).data.drop (extStart (lastSlashSeg origName).data) := hc
    rw [hseg] at hc2
    exact List.drop_subset _ _ hc2
  have hsfx_noslash : '/' ∉ ((nodeBaseName origName ++ "_" ++ Nat.repr t2 ++ nodeExtname origName)).data := by
    intro hmem
    rw [hdata] at hmem
    rcases List.mem_append.mp hmem with hm1 | hm4
    · rcases List.mem_append.mp hm1 with hm2 | hm3
      · rcases List.mem_append.mp hm2 with hb | hu
        · exact hslash (hbase_sub _ hb)
        · exact (by decide : ('/' : Char) ∉ "_".data) hu
      · exact natRepr_ne_slash t2 '/' hm3 rfl
    · exact hslash (hext_sub _ hm4)
  have hus : '_' ∈ ((nodeBaseName origName ++ "_" ++ Nat.repr t2 ++ nodeExtname origName)).data := by
    rw [hdata]
    refine List.mem_append.mpr (Or.inl (List.mem_append.mpr (Or.inl
      (List.mem_append.mpr (Or.inr (by decide))))))
  have hsfx_ne_empty : (nodeBaseName origName ++ "_" ++ Nat.repr t2 ++ nodeExtname origName) ≠ "" := by
    intro he
    rw [he] at hus
    exact (by decide : ¬ ('_' ∈ String.data "")) hus
  have hsfx_ne_dot : (nodeBaseName origName ++ "_" ++ Nat.repr t2 ++ nodeExtname origName) ≠ "." := by
    intro he
    rw [he] at hus
    exact (by decide : ¬ ('_' ∈ String.data ".")) hus
  have hsfx_ne_dd : (nodeBaseName origName ++ "_" ++ Nat.repr t2 ++ nodeExtname origName) ≠ ".." := by
    intro he
    rw [he] at hus
    exact (by decide : ¬ ('_' ∈ String.data "..")) hus
  have hsfx_plain := joinUpload_plain _ hsfx_noslash hsfx_ne_empty hsfx_ne_dot hsfx_ne_dd
  have hsfx_trail := hasTrailSlash_no_slash _ hsfx_noslash
  have hup2 : uploadV1 (fsWrite fs (Target.uploadFile origName) ⟨s1, (t1 : Int), (t1 : Int), true⟩) origName mime s2 t2
      = (fsWrite (fsWrite fs (Target.uploadFile origName) ⟨s1, (t1 : Int), (t1 : Int), true⟩) (Target.uploadFile (nodeBaseName origName ++ "_" ++ Nat.repr t2 ++ nodeExtname origName)) ⟨s2, (t2 : Int), (t2 : Int), true⟩,
         UploadResult.ok { id := encodeName (nodeBaseName origName ++ "_" ++ Nat.repr t2 ++ nodeExtname origName), name := (nodeBaseName origName ++ "_" ++ Nat.repr t2 ++ nodeExtname origName),
                           url := "/uploads/" ++ uriEncode (nodeBaseName origName ++ "_" ++ Nat.repr t2 ++ nodeExtname origName), size := s2,
                           createdAt := (t2 : Int), modifiedAt := (t2 : Int),
                           isUploaded := true }) := by
    unfold uploadV1 uploadOp
    rw [if_neg (by simp [hmime]), if_neg (Nat.not_lt.mpr hs2)]
    simp only [hstored2, hsfx_plain, hsfx_trail]
    rw [if_neg (by simp)]
  have hsfx_ne_orig : (nodeBaseName origName ++ "_" ++ Nat.repr t2 ++ nodeExtname origName) ≠ origName := by
    intro he
    have h5 : (nodeBaseName origName ++ "_" ++ Nat.repr t2 ++ nodeExtname origName).data.length
        = origName.data.length := by
      rw [he]
    rw [hdata, List.length_append, List.length_append, List.length_append] at h5
    have h3 := congrArg List.length (nodeBase_append_ext origName)
    rw [hseg, List.length_append] at h3
    have h4 : ("_".data).length = 1 := by decide
    omega
  refine ⟨hup1, hstored2, hsfx_ne_orig, by rw [hup2], ?_, ?_⟩
  · rw [hup2]
    have hshape : (fsWrite (fsWrite fs (Target.uploadFile origName) ⟨s1, (t1 : Int), (t1 : Int), true⟩) (Target.uploadFile (nodeBaseName origName ++ "_" ++ Nat.repr t2 ++ nodeExtname origName))
        ⟨s2, (t2 : Int), (t2 : Int), true⟩).upload
        = dirWrite (dirWrite fs.upload origName ⟨s1, (t1 : Int), (t1 : Int), true⟩)
            (nodeBaseName origName ++ "_" ++ Nat.repr t2 ++ nodeExtname origName) ⟨s2, (t2 : Int), (t2 : Int), true⟩ := rfl
    rw [hshape, dirLookup_dirWrite_ne _ _ _ _ (fun hcon => hsfx_ne_orig hcon.symm),
      dirLookup_dirWrite_self]
  · rw [hup2]
    have hshape : (fsWrite (fsWrite fs (Target.uploadFile origName) ⟨s1, (t1 : Int), (t1 : Int), true⟩) (Target.uploadFile (nodeBaseName origName ++ "_" ++ Nat.repr t2 ++ nodeExtname origName))
        ⟨s2, (t2 : Int), (t2 : Int), true⟩).upload
        = dirWrite (dirWrite fs.upload origName ⟨s1, (t1 : Int), (t1 : Int), true⟩)
            (nodeBaseName origName ++ "_" ++ Nat.repr t2 ++ nodeExtname origName) ⟨s2, (t2 : Int), (t2 : Int), true⟩ := rfl
    rw [hshape, dirLookup_dirWrite_self]

/-- C7 witness: uploading a.png twice into an empty upload directory stores the
second copy as a_6.png, the timestamp-suffixed variant, with both entries
present afterwards. -/
theorem c7_duplicate_upload_witness :
    storedUploadName (fsWrite { upload := [], staticDir := [] }
        (Target.uploadFile "a.png") ⟨1, (5 : Int), (5 : Int), true⟩) "a.png" 6
      = nodeBaseName "a.png" ++ "_" ++ Nat.repr 6 ++ nodeExtname "a.png" ∧
    nodeBaseName "a.png" ++ "_" ++ Nat.repr 6 ++ nodeExtname "a.png" ≠ "a.png" ∧
    nodeBaseName "a.png" ++ "_" ++ Nat.repr 6 ++ nodeExtname "a.png" = "a_6.png" ∧
    dirLookup ((uploadV1 (fsWrite { upload := [], staticDir := [] }
        (Target.uploadFile "a.png") ⟨1, (5 : Int), (5 : Int), true⟩)
        "a.png" "image/png" 2 6).1).upload "a.png" = some ⟨1, (5 : Int), (5 : Int), true⟩ ∧
    dirLookup ((uploadV1 (fsWrite { upload := [], staticDir := [] }
        (Target.uploadFile "a.png") ⟨1, (5 : Int), (5 : Int), true⟩)
        "a.png" "image/png" 2 6).1).upload
        (nodeBaseName "a.png" ++ "_" ++ Nat.repr 6 ++ nodeExtname "a.png")
      = some ⟨2, (6 : Int), (6 : Int), true⟩ := by
  have h := c7_duplicate_upload { upload := [], staticDir := [] } "a.png" "image/png" 1 2 5 6
    (by decide) (by decide) (by decide) (by decide) (by decide) (by decide) (by decide) (by decide)
  exact ⟨h.2.1, h.2.2.1, by decide, h.2.2.2.2.1, h.2.2.2.2.2⟩

end ServerGuard
